import Mathlib

/-!
Verification development for the `third-party-fake` repository: an in-memory
customer store with idempotent upsert/patch semantics, an outbound webhook
dispatcher with delivery-attempt accounting, an inbound-call audit trail
gated by origin classification, and the React console's patch flow.

The backend synchronization engine is not shipped under `src/` (only its
READMEs and the console frontend are), so the backend definitions below are
modelled from the spec, faithful to its words; the frontend definitions are
translated from `src/frontend/src/App.tsx`.
-/

namespace ThirdPartyFake

/-- Modelled from the spec (backend data model, §3; missing backend source):
a customer record with an immutable `id`, an `archived` flag and a nullable
`payment_term`. -/
structure Customer where
  id : String
  archived : Bool
  payment_term : Option String
deriving Repr, DecidableEq

/-- Modelled from the spec (§4.1; missing backend source): a set of fields
supplied to `upsert`/`patch`.  `none` means the field was not supplied;
for `payment_term`, `some none` is an explicit null. -/
structure Fields where
  archived : Option Bool
  payment_term : Option (Option String)
deriving Repr, DecidableEq

/-- Modelled from the spec (§3 invariant): `payment_term`, if present, must be
one of the two enumerated literals. -/
def validTerm (t : Option String) : Bool :=
  match t with
  | none => true
  | some s => s == "Net 30" || s == "Net 60"

/-- Modelled from the spec (§4.1 shared validation; missing backend source):
`payment_term`, if supplied, must be an enumerated literal or explicit null. -/
def validFields (f : Fields) : Bool :=
  match f.payment_term with
  | none => true
  | some t => validTerm t

/-- Modelled from the spec (§3 OutboundAttempt; missing backend source). -/
structure OutboundAttempt where
  «at» : Nat
  customer_id : String
  webhook_url : Option String
  success : Bool
  status_code : Option Nat
  error : Option String
deriving Repr, DecidableEq

/-- Modelled from the spec (§3 InboundAttempt; missing backend source).
The payload is an opaque value stored verbatim for audit. -/
structure InboundAttempt where
  «at» : Nat
  method : String
  path : String
  payload : String
  success : Bool
  status_code : Nat
  error : Option String
deriving Repr, DecidableEq

/-- Modelled from the spec (§2; missing backend source): the process-wide
state behind the single lock: the customer store in creation order, the
webhook configuration cell, the two append-only ledgers, and a logical
clock supplying the `at` timestamps. -/
structure StoreState where
  customers : List Customer
  webhook_url : Option String
  outbound : List OutboundAttempt
  inbound : List InboundAttempt
  clock : Nat
deriving Repr, DecidableEq

/-- Modelled from the spec (§7 error taxonomy; missing backend source).
WebhookDeliveryError never propagates, so it is not a member here. -/
inductive ApiError where
  | NotFound
  | ValidationError
deriving Repr, DecidableEq

/-- Modelled from the spec (§4.1 merge semantics; missing backend source):
merge only the fields explicitly supplied, leaving the rest unchanged. -/
def mergeCustomer (c : Customer) (f : Fields) : Customer :=
  { c with
    archived := f.archived.getD c.archived
    payment_term := f.payment_term.getD c.payment_term }

/-- Modelled from the spec (§4.1; missing backend source): a freshly created
record uses the supplied fields and the defaults `archived=false`,
`payment_term=null`. -/
def newCustomer (id : String) (f : Fields) : Customer :=
  { id := id
    archived := f.archived.getD false
    payment_term := f.payment_term.getD none }

/-- Lookup of a customer record by id (first match in creation order). -/
def findCustomer (s : StoreState) (id : String) : Option Customer :=
  s.customers.find? (fun c => c.id == id)

/-- Merge the supplied fields into the record carrying `id`, in place. -/
def updateCustomers (id : String) (f : Fields) (l : List Customer) : List Customer :=
  l.map (fun d => if d.id == id then mergeCustomer d f else d)

/-- Modelled from the spec (§4.1 upsert; missing backend source): validation
first (the serving boundary validates the body before the handler runs),
then create-or-merge.  Returns the new state, the resulting record and a
flag indicating whether a new record was created.  Never touches the
ledgers or the webhook configuration. -/
def upsert (id : String) (f : Fields) (s : StoreState) :
    Except ApiError (StoreState × Customer × Bool) :=
  if validFields f then
    match s.customers.find? (fun c => c.id == id) with
    | some c =>
        .ok ({ s with customers := updateCustomers id f s.customers },
             mergeCustomer c f, false)
    | none =>
        .ok ({ s with customers := s.customers ++ [newCustomer id f] },
             newCustomer id f, true)
  else
    .error .ValidationError

/-- Modelled from the spec (§4.4; missing backend source): the outcome of the
single outbound HTTP call, as seen by the dispatcher. -/
inductive NetOutcome where
  | response (status : Nat)
  | failure (error : String) (status : Option Nat)
deriving Repr, DecidableEq

/-- Success of a delivery is defined as receiving any 2xx response. -/
def is2xx (n : Nat) : Bool := 200 ≤ n && n < 300

/-- Modelled from the spec (§4.4 WebhookDispatcher; missing backend source):
append exactly one OutboundAttempt for the customer.  If no URL is
configured the attempt is recorded with `success=false`, `webhook_url=null`
and a "not configured" error, and no network call is made; otherwise one
call is performed and its outcome recorded.  The second component lists the
URLs actually called over the network. -/
def dispatchWebhook (s : StoreState) (c : Customer) (net : String → NetOutcome) :
    StoreState × List String :=
  match s.webhook_url with
  | none =>
      ({ s with
          outbound := s.outbound ++
            [{ «at» := s.clock, customer_id := c.id, webhook_url := none,
               success := false, status_code := none,
               error := some "webhook URL not configured" }]
          clock := s.clock + 1 }, [])
  | some url =>
      let att : OutboundAttempt :=
        match net url with
        | .response st =>
            { «at» := s.clock, customer_id := c.id, webhook_url := some url,
              success := is2xx st, status_code := some st,
              error := if is2xx st then none else some "non-2xx response" }
        | .failure e st =>
            { «at» := s.clock, customer_id := c.id, webhook_url := some url,
              success := false, status_code := st, error := some e }
      ({ s with outbound := s.outbound ++ [att], clock := s.clock + 1 }, [url])

/-- Modelled from the spec (§4.1 patch; missing backend source): validation
first, `NotFound` on an unknown id, otherwise merge and then trigger the
webhook dispatcher exactly once on the committed record. -/
def patch (id : String) (f : Fields) (net : String → NetOutcome) (s : StoreState) :
    Except ApiError (StoreState × Customer × List String) :=
  if validFields f then
    match s.customers.find? (fun c => c.id == id) with
    | none => .error .NotFound
    | some c =>
        let c' := mergeCustomer c f
        let s1 : StoreState := { s with customers := updateCustomers id f s.customers }
        let d := dispatchWebhook s1 c' net
        .ok (d.1, c', d.2)
  else
    .error .ValidationError

/-- Modelled from the spec (§4.2 WebhookConfig; missing backend source):
replace the singleton unconditionally; an empty value clears it. -/
def setWebhookUrl (url : String) (s : StoreState) : StoreState :=
  { s with webhook_url := if url == "" then none else some url }

/-- Modelled from the spec (§6 manual re-dispatch endpoint; missing backend
source): re-dispatch the webhook for the current state of a customer,
independent of any mutation. -/
def callErp (id : String) (net : String → NetOutcome) (s : StoreState) :
    Except ApiError (StoreState × List String) :=
  match s.customers.find? (fun c => c.id == id) with
  | none => .error .NotFound
  | some c => .ok (dispatchWebhook s c net)

/-- Modelled from the spec (§4.3 OriginClassifier; missing backend source):
the two classifications of an inbound mutating call. -/
inductive Origin where
  | console
  | external
deriving Repr, DecidableEq

/-- Modelled from the spec (§4.3; missing backend source): the metadata of an
inbound HTTP call, carrying at minimum a marker distinguishing calls issued
by the operator console from all other callers, plus the audit fields. -/
structure Request where
  origin : Origin
  method : String
  path : String
  payload : String
deriving Repr, DecidableEq

/-- Modelled from the spec (§4.3; missing backend source): a pure function of
request metadata to a classification. -/
def classify (r : Request) : Origin := r.origin

/-- Modelled from the spec (§6 HTTP surface; missing backend source): the
mutating operations reachable through the serving boundary.  `create` is
the third-party-side `POST /customers` (an upsert followed by a webhook
dispatch). -/
inductive Op where
  | push (id : String) (f : Fields)
  | patchOp (id : String) (f : Fields)
  | create (id : String) (f : Fields)
  | config (url : String)
  | callErpOp (id : String)
deriving Repr, DecidableEq

/-- Modelled from the spec (§6; missing backend source): run one mutating
operation against the shared state, returning the committed state or the
client error that aborted it. -/
def runOp (net : String → NetOutcome) (op : Op) (s : StoreState) :
    Except ApiError StoreState :=
  match op with
  | .push id f => (upsert id f s).map (fun x => x.1)
  | .patchOp id f => (patch id f net s).map (fun x => x.1)
  | .create id f =>
      (upsert id f s).map (fun x => (dispatchWebhook x.1 x.2.1 net).1)
  | .config url => .ok (setWebhookUrl url s)
  | .callErpOp id => (callErp id net s).map (fun x => x.1)

/-- HTTP status code reported to the caller for the outcome of an operation. -/
def statusOf (r : Except ApiError StoreState) : Nat :=
  match r with
  | .ok _ => 200
  | .error .NotFound => 404
  | .error .ValidationError => 422

/-- Error string recorded for the outcome of an operation. -/
def errorOf (r : Except ApiError StoreState) : Option String :=
  match r with
  | .ok _ => none
  | .error .NotFound => some "NotFound"
  | .error .ValidationError => some "ValidationError"

/-- The state after an operation has been applied: the committed state on
success, the untouched previous state when the operation aborted with a
client error. -/
def handledState (net : String → NetOutcome) (op : Op) (s : StoreState) :
    StoreState :=
  match runOp net op s with
  | .ok s' => s'
  | .error _ => s

/-- Modelled from the spec (§2 control flow and §4.3; missing backend source):
the request-handling boundary.  The operation is applied (errors leave the
state as it was); the call is then recorded as an InboundAttempt, success
or failure, with its full payload — unless the classifier says it
originated from the operator console. -/
def handle (r : Request) (op : Op) (net : String → NetOutcome) (s : StoreState) :
    StoreState :=
  let res := runOp net op s
  let s1 := handledState net op s
  match classify r with
  | .console => s1
  | .external =>
      { s1 with
        inbound := s1.inbound ++
          [{ «at» := s1.clock, method := r.method, path := r.path,
             payload := r.payload, success := res.isOk,
             status_code := statusOf res, error := errorOf res }]
        clock := s1.clock + 1 }

/-- Modelled from the spec (§1 and the backend README; missing backend
source): the three demonstration customers seeded at startup, and the
default outbound webhook target. -/
def seedState : StoreState :=
  { customers :=
      [{ id := "hs-001", archived := false, payment_term := none },
       { id := "hs-002", archived := false, payment_term := none },
       { id := "hs-003", archived := false, payment_term := none }]
    webhook_url := some "http://localhost:8001/api/webhooks/third-party/sync"
    inbound := []
    outbound := []
    clock := 0 }

/-- The states reachable from the seeded start through the serving boundary,
with arbitrary network behaviour at each step. -/
inductive Reachable : StoreState → Prop where
  | seed : Reachable seedState
  | step (r : Request) (op : Op) (net : String → NetOutcome) (s : StoreState) :
      Reachable s → Reachable (handle r op net s)

/-- The data-model invariant: every stored `payment_term` is one of the two
enumerated literals or null. -/
def ValidState (s : StoreState) : Prop :=
  ∀ c ∈ s.customers, validTerm c.payment_term = true

/-- Sequential composition of patch calls to one id: the serial order in which
concurrent patches commit under the store lock.  A failing patch leaves the
state untouched. -/
def runPatches (id : String) (net : String → NetOutcome) (ps : List Fields)
    (s : StoreState) : StoreState :=
  ps.foldl (fun st f =>
    match patch id f net st with
    | .ok x => x.1
    | .error _ => st) s

/-! Frontend (translated from `src/frontend/src/App.tsx`). -/

/-- The `ApiState` shape fetched from `GET /state` (App.tsx, `type ApiState`).
Attempt timestamps arrive as strings over the wire; the shape is kept
abstract here as the lists of records the console displays. -/
structure ApiState where
  webhook_url : Option String
  customers : List Customer
  webhook_attempts : List OutboundAttempt
  inbound_attempts : List InboundAttempt
deriving Repr, DecidableEq

/-- The optimistic local update performed by `patchCustomer` before the PATCH
request is sent (App.tsx lines 116-124): map over the displayed customers
and spread the patch over the matching record. -/
def optimisticApply (st : ApiState) (customerId : String) (p : Fields) : ApiState :=
  { st with
    customers := st.customers.map (fun c =>
      if c.id == customerId then mergeCustomer c p else c) }

/-- `refreshState` (App.tsx lines 74-86): fetch `/state`; on success replace
the local state with the fetched snapshot, on fetch failure record the
error message and leave the local state as it was. -/
def refreshState (st : ApiState) (fetched : Except String ApiState) : ApiState :=
  match fetched with
  | .ok next => next
  | .error _ => st

/-- `patchCustomer` (App.tsx lines 110-137): apply the patch optimistically,
issue the PATCH request, then re-fetch `/state` on success and on failure
alike.  Returns the locally displayed state right after the optimistic
update and the state once the flow completes.  `patchResult` is the PATCH
round-trip outcome and `fetched` the `/state` round-trip outcome. -/
def patchCustomer (st : ApiState) (customerId : String) (p : Fields)
    (patchResult : Except String Unit) (fetched : Except String ApiState) :
    ApiState × ApiState :=
  let optimistic := optimisticApply st customerId p
  match patchResult with
  | .ok _ => (optimistic, refreshState optimistic fetched)
  | .error _ => (optimistic, refreshState optimistic fetched)

/-- The OutboundAttempt that the dispatcher appends, as a function of the
configured URL, the customer id, the clock at dispatch time and the
network behaviour. -/
def mkAttempt (cfg : Option String) (cid : String) (clk : Nat)
    (net : String → NetOutcome) : OutboundAttempt :=
  match cfg with
  | none =>
      { «at» := clk, customer_id := cid, webhook_url := none,
        success := false, status_code := none,
        error := some "webhook URL not configured" }
  | some url =>
      match net url with
      | .response st =>
          { «at» := clk, customer_id := cid, webhook_url := some url,
            success := is2xx st, status_code := some st,
            error := if is2xx st then none else some "non-2xx response" }
      | .failure e st =>
          { «at» := clk, customer_id := cid, webhook_url := some url,
            success := false, status_code := st, error := some e }

/-- The URLs the dispatcher calls over the network: none when unconfigured,
exactly the configured one otherwise. -/
def netCalls (cfg : Option String) : List String :=
  match cfg with
  | none => []
  | some url => [url]

/-! Concrete demonstration inputs used to exercise the theorems below. -/

/-- A network on which every delivery returns HTTP 200. -/
def net200 : String → NetOutcome := fun _ => .response 200

/-- A network on which every delivery fails at transport level. -/
def netDown : String → NetOutcome := fun _ => .failure "connection refused" none

/-- A field set supplying only `archived := true`. -/
def fArch : Fields := { archived := some true, payment_term := none }

/-- A field set supplying only `payment_term := "Net 30"`. -/
def fNet30 : Fields := { archived := none, payment_term := some (some "Net 30") }

/-- A field set supplying an out-of-enumeration `payment_term`. -/
def fBad : Fields := { archived := none, payment_term := some (some "Net 45") }

/-- The record created by pushing `hs-010` with `payment_term := "Net 30"`. -/
def demoCust : Customer :=
  { id := "hs-010", archived := false, payment_term := some "Net 30" }

/-- The store after that push on the seeded state. -/
def demoS1 : StoreState :=
  { seedState with customers := seedState.customers ++ [demoCust] }

/-- The store after patching `hs-001` with `fArch` on the seeded state, while
the network answers 200. -/
def demoPatchedS : StoreState :=
  { seedState with
    customers := updateCustomers "hs-001" fArch seedState.customers
    outbound := seedState.outbound ++
      [mkAttempt seedState.webhook_url "hs-001" seedState.clock net200]
    clock := seedState.clock + 1 }

/-- The record resulting from that patch. -/
def demoMergedC : Customer :=
  { id := "hs-001", archived := true, payment_term := none }

/-- A console-origin request. -/
def reqConsole : Request :=
  { origin := .console, method := "PATCH", path := "/customers/hs-001",
    payload := "archived=true" }

/-- An external-origin request. -/
def reqExternal : Request :=
  { origin := .external, method := "POST", path := "/customers/push",
    payload := "id=hs-001 archived=true" }

/-! Basic lemmas about the merge operation and the store update. -/

theorem merge_id (c : Customer) (f : Fields) : (mergeCustomer c f).id = c.id := rfl

theorem newCustomer_id (id : String) (f : Fields) : (newCustomer id f).id = id := rfl

theorem merge_merge (c : Customer) (f : Fields) :
    mergeCustomer (mergeCustomer c f) f = mergeCustomer c f := by
  rcases f with ⟨fa, fp⟩
  cases fa <;> cases fp <;> rfl

theorem merge_new (id : String) (f : Fields) :
    mergeCustomer (newCustomer id f) f = newCustomer id f := by
  rcases f with ⟨fa, fp⟩
  cases fa <;> cases fp <;> rfl

theorem find?_updateCustomers (l : List Customer) (id : String) (f : Fields) :
    (updateCustomers id f l).find? (fun c => c.id == id) =
      (l.find? (fun c => c.id == id)).map (fun c => mergeCustomer c f) := by
  induction l with
  | nil => rfl
  | cons d t ih =>
      cases hd : d.id == id <;> simp_all [updateCustomers, merge_id]

theorem updateCustomers_idem (l : List Customer) (id : String) (f : Fields) :
    updateCustomers id f (updateCustomers id f l) = updateCustomers id f l := by
  simp only [updateCustomers, List.map_map]
  apply List.map_congr_left
  intro d _
  cases hd : d.id == id <;> simp [Function.comp, hd, merge_id, merge_merge]

theorem countP_updateCustomers (l : List Customer) (id : String) (f : Fields) :
    (updateCustomers id f l).countP (fun c => c.id == id) =
      l.countP (fun c => c.id == id) := by
  induction l with
  | nil => rfl
  | cons d t ih =>
      cases hd : d.id == id <;> simp_all [updateCustomers, merge_id, List.countP_cons]

theorem dispatchWebhook_eq (s : StoreState) (c : Customer)
    (net : String → NetOutcome) :
    dispatchWebhook s c net =
      ({ s with
          outbound := s.outbound ++ [mkAttempt s.webhook_url c.id s.clock net]
          clock := s.clock + 1 },
       netCalls s.webhook_url) := by
  rcases s with ⟨cs, url, ob, ib, ck⟩
  cases url with
  | none => rfl
  | some u => cases hu : net u <;> simp [dispatchWebhook, mkAttempt, netCalls, hu]

theorem upsert_eq_invalid (id : String) (f : Fields) (s : StoreState)
    (hv : validFields f = false) :
    upsert id f s = .error .ValidationError := by
  simp [upsert, hv]

theorem patch_eq_invalid (id : String) (f : Fields) (net : String → NetOutcome)
    (s : StoreState) (hv : validFields f = false) :
    patch id f net s = .error .ValidationError := by
  simp [patch, hv]

theorem upsert_eq_of_found (id : String) (f : Fields) (s : StoreState)
    (c : Customer) (hv : validFields f = true)
    (hc : findCustomer s id = some c) :
    upsert id f s =
      .ok ({ s with customers := updateCustomers id f s.customers },
           mergeCustomer c f, false) := by
  simp only [findCustomer] at hc
  simp [upsert, hv, hc]

theorem upsert_eq_of_absent (id : String) (f : Fields) (s : StoreState)
    (hv : validFields f = true) (hc : findCustomer s id = none) :
    upsert id f s =
      .ok ({ s with customers := s.customers ++ [newCustomer id f] },
           newCustomer id f, true) := by
  simp only [findCustomer] at hc
  simp [upsert, hv, hc]

theorem patch_eq_of_absent (id : String) (f : Fields) (net : String → NetOutcome)
    (s : StoreState) (hv : validFields f = true)
    (hc : findCustomer s id = none) :
    patch id f net s = .error .NotFound := by
  simp only [findCustomer] at hc
  simp [patch, hv, hc]

theorem patch_eq_of_found (id : String) (f : Fields) (net : String → NetOutcome)
    (s : StoreState) (c : Customer) (hv : validFields f = true)
    (hc : findCustomer s id = some c) :
    patch id f net s =
      .ok ({ s with
              customers := updateCustomers id f s.customers
              outbound := s.outbound ++ [mkAttempt s.webhook_url c.id s.clock net]
              clock := s.clock + 1 },
           mergeCustomer c f, netCalls s.webhook_url) := by
  simp only [findCustomer] at hc
  simp only [patch, hv, if_true, hc, dispatchWebhook_eq, merge_id]

theorem mkAttempt_customer_id (cfg : Option String) (cid : String) (clk : Nat)
    (net : String → NetOutcome) : (mkAttempt cfg cid clk net).customer_id = cid := by
  cases cfg with
  | none => rfl
  | some u => cases hu : net u <;> simp [mkAttempt, hu]

theorem mkAttempt_at (cfg : Option String) (cid : String) (clk : Nat)
    (net : String → NetOutcome) : (mkAttempt cfg cid clk net).«at» = clk := by
  cases cfg with
  | none => rfl
  | some u => cases hu : net u <;> simp [mkAttempt, hu]

theorem find?_id {l : List Customer} {id : String} {c : Customer}
    (h : l.find? (fun x => x.id == id) = some c) : c.id = id := by
  induction l with
  | nil => cases h
  | cons d t ih =>
      simp only [List.find?_cons] at h
      cases hd : d.id == id with
      | true =>
          simp only [hd] at h
          cases h
          exact eq_of_beq hd
      | false =>
          simp only [hd] at h
          exact ih h

theorem findCustomer_id (s : StoreState) (id : String) (c : Customer)
    (hc : findCustomer s id = some c) : c.id = id := by
  simp only [findCustomer] at hc
  exact find?_id hc

/-! State-frame lemmas: which parts of the state each operation can touch. -/

theorem handledState_inbound (net : String → NetOutcome) (op : Op) (s : StoreState) :
    (handledState net op s).inbound = s.inbound := by
  cases op with
  | push id f =>
      cases hv : validFields f with
      | false => simp [handledState, runOp, Except.map, upsert_eq_invalid id f s hv]
      | true =>
          cases hc : findCustomer s id with
          | none => simp [handledState, runOp, Except.map, upsert_eq_of_absent id f s hv hc]
          | some c => simp [handledState, runOp, Except.map, upsert_eq_of_found id f s c hv hc]
  | patchOp id f =>
      cases hv : validFields f with
      | false => simp [handledState, runOp, Except.map, patch_eq_invalid id f net s hv]
      | true =>
          cases hc : findCustomer s id with
          | none => simp [handledState, runOp, Except.map, patch_eq_of_absent id f net s hv hc]
          | some c => simp [handledState, runOp, Except.map, patch_eq_of_found id f net s c hv hc]
  | create id f =>
      cases hv : validFields f with
      | false => simp [handledState, runOp, Except.map, upsert_eq_invalid id f s hv]
      | true =>
          cases hc : findCustomer s id with
          | none =>
              simp [handledState, runOp, Except.map, upsert_eq_of_absent id f s hv hc,
                dispatchWebhook_eq]
          | some c =>
              simp [handledState, runOp, Except.map, upsert_eq_of_found id f s c hv hc,
                dispatchWebhook_eq]
  | config url => simp [handledState, runOp, Except.map, setWebhookUrl]
  | callErpOp id =>
      cases hc : findCustomer s id with
      | none =>
          simp only [findCustomer] at hc
          simp [handledState, runOp, Except.map, callErp, hc]
      | some c =>
          simp only [findCustomer] at hc
          simp [handledState, runOp, Except.map, callErp, hc, dispatchWebhook_eq]

theorem handle_customers (r : Request) (op : Op) (net : String → NetOutcome)
    (s : StoreState) :
    (handle r op net s).customers = (handledState net op s).customers := by
  cases hc : classify r <;> simp [handle, hc]

theorem handle_outbound (r : Request) (op : Op) (net : String → NetOutcome)
    (s : StoreState) :
    (handle r op net s).outbound = (handledState net op s).outbound := by
  cases hc : classify r <;> simp [handle, hc]

theorem handle_webhook_url (r : Request) (op : Op) (net : String → NetOutcome)
    (s : StoreState) :
    (handle r op net s).webhook_url = (handledState net op s).webhook_url := by
  cases hc : classify r <;> simp [handle, hc]

/-! Preservation of the payment-term invariant. -/

theorem valid_merge (d : Customer) (f : Fields) (hv : validFields f = true)
    (hd : validTerm d.payment_term = true) :
    validTerm (mergeCustomer d f).payment_term = true := by
  cases hf : f.payment_term with
  | none => simpa [mergeCustomer, hf] using hd
  | some t =>
      simp only [validFields, hf] at hv
      simpa [mergeCustomer, hf] using hv

theorem valid_new (id : String) (f : Fields) (hv : validFields f = true) :
    validTerm (newCustomer id f).payment_term = true := by
  cases hf : f.payment_term with
  | none => simp [newCustomer, hf, validTerm]
  | some t =>
      simp only [validFields, hf] at hv
      simpa [newCustomer, hf] using hv

theorem valid_updateCustomers (l : List Customer) (id : String) (f : Fields)
    (hv : validFields f = true) (h : ∀ c ∈ l, validTerm c.payment_term = true) :
    ∀ c ∈ updateCustomers id f l, validTerm c.payment_term = true := by
  intro c hcmem
  simp only [updateCustomers, List.mem_map] at hcmem
  obtain ⟨d, hd, rfl⟩ := hcmem
  by_cases hid : (d.id == id) = true
  · simpa [hid] using valid_merge d f hv (h d hd)
  · simp only [hid, if_false]
    simpa using h d hd

theorem handledState_valid (net : String → NetOutcome) (op : Op) (s : StoreState)
    (h : ValidState s) : ValidState (handledState net op s) := by
  cases op with
  | push id f =>
      cases hv : validFields f with
      | false => simpa [handledState, runOp, upsert_eq_invalid id f s hv] using h
      | true =>
          cases hc : findCustomer s id with
          | none =>
              simp only [handledState, runOp, upsert_eq_of_absent id f s hv hc,
                Except.map]
              intro c hcmem
              rcases List.mem_append.mp hcmem with hl | hr
              · exact h c hl
              · simp only [List.mem_singleton] at hr
                subst hr
                exact valid_new id f hv
          | some c0 =>
              simp only [handledState, runOp, upsert_eq_of_found id f s c0 hv hc,
                Except.map]
              exact valid_updateCustomers s.customers id f hv h
  | patchOp id f =>
      cases hv : validFields f with
      | false => simpa [handledState, runOp, patch_eq_invalid id f net s hv] using h
      | true =>
          cases hc : findCustomer s id with
          | none =>
              simpa [handledState, runOp, patch_eq_of_absent id f net s hv hc] using h
          | some c0 =>
              simp only [handledState, runOp, patch_eq_of_found id f net s c0 hv hc,
                Except.map]
              exact valid_updateCustomers s.customers id f hv h
  | create id f =>
      cases hv : validFields f with
      | false => simpa [handledState, runOp, upsert_eq_invalid id f s hv] using h
      | true =>
          cases hc : findCustomer s id with
          | none =>
              simp only [handledState, runOp, upsert_eq_of_absent id f s hv hc,
                Except.map, dispatchWebhook_eq]
              intro c hcmem
              rcases List.mem_append.mp hcmem with hl | hr
              · exact h c hl
              · simp only [List.mem_singleton] at hr
                subst hr
                exact valid_new id f hv
          | some c0 =>
              simp only [handledState, runOp, upsert_eq_of_found id f s c0 hv hc,
                Except.map, dispatchWebhook_eq]
              exact valid_updateCustomers s.customers id f hv h
  | config url => simpa [handledState, runOp, setWebhookUrl] using h
  | callErpOp id =>
      cases hc : findCustomer s id with
      | none =>
          simp only [findCustomer] at hc
          simpa [handledState, runOp, callErp, hc] using h
      | some c =>
          simp only [findCustomer] at hc
          simpa [handledState, runOp, callErp, hc, dispatchWebhook_eq] using h

theorem reachable_valid : ∀ s, Reachable s → ValidState s := by
  intro s h
  induction h with
  | seed =>
      intro c hc
      simp only [seedState, List.mem_cons, List.not_mem_nil, or_false] at hc
      rcases hc with rfl | rfl | rfl <;> rfl
  | step r op net s hs ih =>
      intro c hc
      rw [show (handle r op net s).customers = (handledState net op s).customers from
        handle_customers r op net s] at hc
      exact handledState_valid net op s ih c hc

/-! Folding a list of merges: a field never supplied stays put, a field
supplied exactly once ends up at the supplied value, in every order. -/

theorem foldl_merge_archived_nil : ∀ (ps : List Fields) (c : Customer),
    ps.filterMap (fun f => f.archived) = [] →
    (ps.foldl mergeCustomer c).archived = c.archived := by
  intro ps
  induction ps with
  | nil => intro c _; rfl
  | cons f t ih =>
      intro c h
      cases hf : f.archived with
      | some a => simp [List.filterMap_cons, hf] at h
      | none =>
          simp only [List.filterMap_cons, hf] at h
          rw [List.foldl_cons, ih _ h]
          simp [mergeCustomer, hf]

theorem foldl_merge_archived : ∀ (ps : List Fields) (c : Customer) (a : Bool),
    ps.filterMap (fun f => f.archived) = [a] →
    (ps.foldl mergeCustomer c).archived = a := by
  intro ps
  induction ps with
  | nil => intro c a h; simp at h
  | cons f t ih =>
      intro c a h
      cases hf : f.archived with
      | some a0 =>
          simp only [List.filterMap_cons, hf] at h
          injection h with h1 h2
          rw [List.foldl_cons, foldl_merge_archived_nil t _ h2]
          simp [mergeCustomer, hf, h1]
      | none =>
          simp only [List.filterMap_cons, hf] at h
          rw [List.foldl_cons]
          exact ih _ a h

theorem foldl_merge_pt_nil : ∀ (ps : List Fields) (c : Customer),
    ps.filterMap (fun f => f.payment_term) = [] →
    (ps.foldl mergeCustomer c).payment_term = c.payment_term := by
  intro ps
  induction ps with
  | nil => intro c _; rfl
  | cons f t ih =>
      intro c h
      cases hf : f.payment_term with
      | some t0 => simp [List.filterMap_cons, hf] at h
      | none =>
          simp only [List.filterMap_cons, hf] at h
          rw [List.foldl_cons, ih _ h]
          simp [mergeCustomer, hf]

theorem foldl_merge_pt : ∀ (ps : List Fields) (c : Customer) (t : Option String),
    ps.filterMap (fun f => f.payment_term) = [t] →
    (ps.foldl mergeCustomer c).payment_term = t := by
  intro ps
  induction ps with
  | nil => intro c t h; simp at h
  | cons f ft ih =>
      intro c t h
      cases hf : f.payment_term with
      | some t0 =>
          simp only [List.filterMap_cons, hf] at h
          injection h with h1 h2
          rw [List.foldl_cons, foldl_merge_pt_nil ft _ h2]
          simp [mergeCustomer, hf, h1]
      | none =>
          simp only [List.filterMap_cons, hf] at h
          rw [List.foldl_cons]
          exact ih _ t h

/-- Behaviour of a serial sequence of successful patch calls to one id: the
final record is the fold of the merges, and the outbound ledger is extended
by one attempt per patch, for that customer, timestamped in commit order. -/
theorem runPatches_spec (id : String) (net : String → NetOutcome) :
    ∀ (ps : List Fields) (s : StoreState) (c : Customer),
      findCustomer s id = some c → (∀ f ∈ ps, validFields f = true) →
      findCustomer (runPatches id net ps s) id = some (ps.foldl mergeCustomer c) ∧
      ∃ ats : List OutboundAttempt,
        (runPatches id net ps s).outbound = s.outbound ++ ats ∧
        ats.length = ps.length ∧
        (∀ a ∈ ats, a.customer_id = id) ∧
        (∀ k (hk : k < ats.length), (ats.get ⟨k, hk⟩).«at» = s.clock + k) := by
  intro ps
  induction ps with
  | nil =>
      intro s c hc _
      exact ⟨hc, [], by simp [runPatches], rfl, by simp, by simp⟩
  | cons f t ih =>
      intro s c hc hv
      have hvf : validFields f = true := hv f (by simp)
      have hvt : ∀ g ∈ t, validFields g = true := fun g hg => hv g (by simp [hg])
      have hpe := patch_eq_of_found id f net s c hvf hc
      have hrw : runPatches id net (f :: t) s =
          runPatches id net t
            { s with
              customers := updateCustomers id f s.customers
              outbound := s.outbound ++ [mkAttempt s.webhook_url c.id s.clock net]
              clock := s.clock + 1 } := by
        simp [runPatches, List.foldl_cons, hpe]
      have hc1 : findCustomer
          { s with
            customers := updateCustomers id f s.customers
            outbound := s.outbound ++ [mkAttempt s.webhook_url c.id s.clock net]
            clock := s.clock + 1 } id = some (mergeCustomer c f) := by
        simp only [findCustomer]
        rw [find?_updateCustomers]
        simp only [findCustomer] at hc
        simp [hc]
      obtain ⟨hfind, ats', h1, h2, h3, h4⟩ := ih _ (mergeCustomer c f) hc1 hvt
      refine ⟨?_, mkAttempt s.webhook_url c.id s.clock net :: ats', ?_, ?_, ?_, ?_⟩
      · rw [hrw, List.foldl_cons]
        exact hfind
      · rw [hrw, h1]
        simp
      · simp [h2]
      · intro a ha
        rcases List.mem_cons.mp ha with rfl | hm
        · rw [mkAttempt_customer_id]
          exact findCustomer_id s id c hc
        · exact h3 a hm
      · intro k hk
        cases k with
        | zero =>
            rw [show ((mkAttempt s.webhook_url c.id s.clock net :: ats').get ⟨0, hk⟩) =
              mkAttempt s.webhook_url c.id s.clock net from rfl, mkAttempt_at]
            exact (Nat.add_zero _).symm
        | succ k' =>
            have hk' : k' < ats'.length := by
              have h5 := hk
              simp only [List.length_cons] at h5
              exact Nat.lt_of_succ_lt_succ h5
            have e1 : ((mkAttempt s.webhook_url c.id s.clock net :: ats').get
                ⟨k' + 1, hk⟩) = ats'.get ⟨k', hk'⟩ := rfl
            rw [e1, h4 k' hk']
            show s.clock + 1 + k' = s.clock + (k' + 1)
            omega

theorem merge_archived_none (c : Customer) (f : Fields) (h : f.archived = none) :
    (mergeCustomer c f).archived = c.archived := by
  simp [mergeCustomer, h]

theorem merge_archived_some (c : Customer) (f : Fields) (a : Bool)
    (h : f.archived = some a) : (mergeCustomer c f).archived = a := by
  simp [mergeCustomer, h]

theorem merge_pt_none (c : Customer) (f : Fields) (h : f.payment_term = none) :
    (mergeCustomer c f).payment_term = c.payment_term := by
  simp [mergeCustomer, h]

theorem merge_pt_some (c : Customer) (f : Fields) (t : Option String)
    (h : f.payment_term = some t) : (mergeCustomer c f).payment_term = t := by
  simp [mergeCustomer, h]

/-! The claims. -/

/-- C1: every successful `patch(id, fields)` call appends exactly one new
OutboundAttempt to the outbound ledger — the dispatched attempt — no more
and no fewer, whatever the network does; a successful `upsert` (push) never
touches the outbound ledger. -/
theorem patch_dispatch_once (s : StoreState) (id : String) (f : Fields)
    (net : String → NetOutcome) :
    (∀ s' c' calls, patch id f net s = .ok (s', c', calls) →
        s'.outbound = s.outbound ++ [mkAttempt s.webhook_url id s.clock net]) ∧
    (∀ s' c' created, upsert id f s = .ok (s', c', created) →
        s'.outbound = s.outbound) := by
  constructor
  · intro s' c' calls h
    cases hv : validFields f with
    | false =>
        rw [patch_eq_invalid id f net s hv] at h
        simp at h
    | true =>
        cases hc : findCustomer s id with
        | none =>
            rw [patch_eq_of_absent id f net s hv hc] at h
            simp at h
        | some c =>
            rw [patch_eq_of_found id f net s c hv hc] at h
            simp only [Except.ok.injEq, Prod.mk.injEq] at h
            obtain ⟨hs', hc', hcalls⟩ := h
            subst hs'
            show s.outbound ++ [mkAttempt s.webhook_url c.id s.clock net] =
              s.outbound ++ [mkAttempt s.webhook_url id s.clock net]
            rw [findCustomer_id s id c hc]
  · intro s' c' created h
    cases hv : validFields f with
    | false =>
        rw [upsert_eq_invalid id f s hv] at h
        simp at h
    | true =>
        cases hc : findCustomer s id with
        | some c =>
            rw [upsert_eq_of_found id f s c hv hc] at h
            simp only [Except.ok.injEq, Prod.mk.injEq] at h
            obtain ⟨hs', h2, h3⟩ := h
            subst hs'
            rfl
        | none =>
            rw [upsert_eq_of_absent id f s hv hc] at h
            simp only [Except.ok.injEq, Prod.mk.injEq] at h
            obtain ⟨hs', h2, h3⟩ := h
            subst hs'
            rfl

theorem patch_dispatch_once_witness :
    demoPatchedS.outbound = seedState.outbound ++
      [mkAttempt seedState.webhook_url "hs-001" seedState.clock net200] :=
  (patch_dispatch_once seedState "hs-001" fArch net200).1 demoPatchedS demoMergedC
    (netCalls seedState.webhook_url) rfl

/-- C2: on a record already present, both upsert (push) and patch merge only
the fields explicitly supplied, leaving unspecified fields of that record
unchanged, and the merged record is what the store then holds for that id. -/
theorem mutators_merge_only_supplied (s : StoreState) (id : String) (c : Customer)
    (f : Fields) (net : String → NetOutcome)
    (hc : findCustomer s id = some c) (hv : validFields f = true) :
    (∀ s' r b, upsert id f s = .ok (s', r, b) →
        findCustomer s' id = some r ∧
        (f.archived = none → r.archived = c.archived) ∧
        (∀ a, f.archived = some a → r.archived = a) ∧
        (f.payment_term = none → r.payment_term = c.payment_term) ∧
        (∀ t, f.payment_term = some t → r.payment_term = t)) ∧
    (∀ s' r calls, patch id f net s = .ok (s', r, calls) →
        findCustomer s' id = some r ∧
        (f.archived = none → r.archived = c.archived) ∧
        (∀ a, f.archived = some a → r.archived = a) ∧
        (f.payment_term = none → r.payment_term = c.payment_term) ∧
        (∀ t, f.payment_term = some t → r.payment_term = t)) := by
  constructor
  · intro s' r b h
    rw [upsert_eq_of_found id f s c hv hc] at h
    simp only [Except.ok.injEq, Prod.mk.injEq] at h
    obtain ⟨hs', hr, hb⟩ := h
    subst hs'
    subst hr
    refine ⟨?_, merge_archived_none c f, merge_archived_some c f,
      merge_pt_none c f, merge_pt_some c f⟩
    show (updateCustomers id f s.customers).find? (fun x => x.id == id) =
      some (mergeCustomer c f)
    rw [find?_updateCustomers]
    simp only [findCustomer] at hc
    simp [hc]
  · intro s' r calls h
    rw [patch_eq_of_found id f net s c hv hc] at h
    simp only [Except.ok.injEq, Prod.mk.injEq] at h
    obtain ⟨hs', hr, hcalls⟩ := h
    subst hs'
    subst hr
    refine ⟨?_, merge_archived_none c f, merge_archived_some c f,
      merge_pt_none c f, merge_pt_some c f⟩
    show (updateCustomers id f s.customers).find? (fun x => x.id == id) =
      some (mergeCustomer c f)
    rw [find?_updateCustomers]
    simp only [findCustomer] at hc
    simp [hc]

theorem mutators_merge_only_supplied_witness :
    (mergeCustomer demoCust fArch).payment_term = some "Net 30" :=
  ((mutators_merge_only_supplied demoS1 "hs-010" demoCust fArch net200
    rfl rfl).1 _ _ _ rfl).2.2.2.1 rfl

/-- C3: push (upsert) is idempotent: when no two records share the id, a
second identical push returns the same state and record, reports that no
record was created, and the store holds exactly one record with that id. -/
theorem push_idempotent (s : StoreState) (id : String) (f : Fields)
    (s1 : StoreState) (r : Customer) (created : Bool)
    (hcount : s.customers.countP (fun c => c.id == id) ≤ 1)
    (h1 : upsert id f s = .ok (s1, r, created)) :
    upsert id f s1 = .ok (s1, r, false) ∧
    s1.customers.countP (fun c => c.id == id) = 1 := by
  cases hv : validFields f with
  | false =>
      rw [upsert_eq_invalid id f s hv] at h1
      simp at h1
  | true =>
      cases hc : findCustomer s id with
      | some c =>
          rw [upsert_eq_of_found id f s c hv hc] at h1
          simp only [Except.ok.injEq, Prod.mk.injEq] at h1
          obtain ⟨hs1, hr, hcr⟩ := h1
          subst hs1
          subst hr
          constructor
          · have hc1 : findCustomer
                { s with customers := updateCustomers id f s.customers } id =
                some (mergeCustomer c f) := by
              show (updateCustomers id f s.customers).find? (fun x => x.id == id) =
                some (mergeCustomer c f)
              rw [find?_updateCustomers]
              simp only [findCustomer] at hc
              simp [hc]
            rw [upsert_eq_of_found id f
              { s with customers := updateCustomers id f s.customers }
              (mergeCustomer c f) hv hc1, merge_merge]
            show Except.ok
              (StoreState.mk (updateCustomers id f (updateCustomers id f s.customers))
                s.webhook_url s.outbound s.inbound s.clock,
               mergeCustomer c f, false) =
              Except.ok
              (StoreState.mk (updateCustomers id f s.customers)
                s.webhook_url s.outbound s.inbound s.clock,
               mergeCustomer c f, false)
            rw [updateCustomers_idem]
          · show (updateCustomers id f s.customers).countP (fun c => c.id == id) = 1
            rw [countP_updateCustomers]
            have hmem : c ∈ s.customers := by
              simp only [findCustomer] at hc
              exact List.mem_of_find?_eq_some hc
            have hpred : (c.id == id) = true := by
              simp [findCustomer_id s id c hc]
            have hpos : 0 < s.customers.countP (fun x => x.id == id) :=
              List.countP_pos_iff.mpr ⟨c, hmem, hpred⟩
            omega
      | none =>
          rw [upsert_eq_of_absent id f s hv hc] at h1
          simp only [Except.ok.injEq, Prod.mk.injEq] at h1
          obtain ⟨hs1, hr, hcr⟩ := h1
          subst hs1
          subst hr
          have hnone : s.customers.find? (fun x => x.id == id) = none := by
            simpa [findCustomer] using hc
          have hnomatch : ∀ x ∈ s.customers, ¬ ((x.id == id) = true) :=
            List.find?_eq_none.mp hnone
          constructor
          · have hfind : findCustomer
                { s with customers := s.customers ++ [newCustomer id f] } id =
                some (newCustomer id f) := by
              show (s.customers ++ [newCustomer id f]).find? (fun x => x.id == id) =
                some (newCustomer id f)
              rw [List.find?_append, hnone]
              simp [newCustomer]
            rw [upsert_eq_of_found id f
              { s with customers := s.customers ++ [newCustomer id f] }
              (newCustomer id f) hv hfind, merge_new]
            have hpt : ∀ d ∈ s.customers ++ [newCustomer id f],
                (if d.id == id then mergeCustomer d f else d) = d := by
              intro d hd
              rcases List.mem_append.mp hd with hl | hr
              · simp [hnomatch d hl]
              · simp only [List.mem_singleton] at hr
                subst hr
                simp [newCustomer_id, merge_new]
            have hupd : updateCustomers id f (s.customers ++ [newCustomer id f]) =
                s.customers ++ [newCustomer id f] := by
              show (s.customers ++ [newCustomer id f]).map
                  (fun d => if d.id == id then mergeCustomer d f else d) =
                s.customers ++ [newCustomer id f]
              rw [List.map_congr_left hpt]
              exact List.map_id _
            show Except.ok
              (StoreState.mk (updateCustomers id f (s.customers ++ [newCustomer id f]))
                s.webhook_url s.outbound s.inbound s.clock,
               newCustomer id f, false) =
              Except.ok
              (StoreState.mk (s.customers ++ [newCustomer id f])
                s.webhook_url s.outbound s.inbound s.clock,
               newCustomer id f, false)
            rw [hupd]
          · show (s.customers ++ [newCustomer id f]).countP (fun c => c.id == id) = 1
            rw [List.countP_append]
            have h0 : s.customers.countP (fun x => x.id == id) = 0 :=
              List.countP_eq_zero.mpr hnomatch
            rw [h0]
            simp [newCustomer]

theorem push_idempotent_witness :
    (upsert "hs-010" fNet30 demoS1 = .ok (demoS1, demoCust, false) ∧
     demoS1.customers.countP (fun c => c.id == "hs-010") = 1) :=
  push_idempotent seedState "hs-010" fNet30 demoS1 demoCust true (by decide) rfl

/-- C4: every state reachable from the seeded start satisfies the invariant
that each stored `payment_term` is `Net 30`, `Net 60` or null, and both
mutators reject any other supplied value with `ValidationError`, committing
nothing. -/
theorem payment_term_invariant :
    (∀ s, Reachable s → ValidState s) ∧
    (∀ id f s (net : String → NetOutcome), validFields f = false →
        upsert id f s = .error .ValidationError ∧
        patch id f net s = .error .ValidationError) :=
  ⟨reachable_valid,
   fun id f s net hv =>
     ⟨upsert_eq_invalid id f s hv, patch_eq_invalid id f net s hv⟩⟩

theorem payment_term_invariant_witness :
    ValidState seedState ∧
    (upsert "hs-001" fBad seedState = .error .ValidationError ∧
     patch "hs-001" fBad net200 seedState = .error .ValidationError) :=
  ⟨payment_term_invariant.1 seedState Reachable.seed,
   payment_term_invariant.2 "hs-001" fBad seedState net200 rfl⟩

/-- C5: patch on an id absent from the store fails with `NotFound`; the
store operation commits nothing — through the boundary the customers, the
outbound ledger and the configuration are untouched, and a console-origin
call leaves the state exactly as it was. -/
theorem patch_unknown (s : StoreState) (id : String) (f : Fields)
    (net : String → NetOutcome) (r : Request)
    (habs : findCustomer s id = none) (hv : validFields f = true) :
    patch id f net s = .error .NotFound ∧
    (handle r (.patchOp id f) net s).customers = s.customers ∧
    (handle r (.patchOp id f) net s).outbound = s.outbound ∧
    (handle r (.patchOp id f) net s).webhook_url = s.webhook_url ∧
    (classify r = .console → handle r (.patchOp id f) net s = s) := by
  have hp : patch id f net s = .error .NotFound :=
    patch_eq_of_absent id f net s hv habs
  have hhs : handledState net (.patchOp id f) s = s := by
    simp [handledState, runOp, Except.map, hp]
  refine ⟨hp, ?_, ?_, ?_, ?_⟩
  · rw [handle_customers, hhs]
  · rw [handle_outbound, hhs]
  · rw [handle_webhook_url, hhs]
  · intro hcr
    simp [handle, hcr, hhs]

theorem patch_unknown_witness :
    patch "zz-404" fArch net200 seedState = .error .NotFound ∧
    handle reqConsole (.patchOp "zz-404" fArch) net200 seedState = seedState :=
  ⟨(patch_unknown seedState "zz-404" fArch net200 reqConsole rfl rfl).1,
   (patch_unknown seedState "zz-404" fArch net200 reqConsole rfl rfl).2.2.2.2 rfl⟩

/-- C6: a successful patch with no webhook URL configured appends an
OutboundAttempt with `success=false`, `webhook_url=null` and a
"not configured" error, and performs no network call (the list of called
URLs is empty). -/
theorem patch_unconfigured (s : StoreState) (id : String) (c : Customer)
    (f : Fields) (net : String → NetOutcome)
    (hurl : s.webhook_url = none) (hc : findCustomer s id = some c)
    (hv : validFields f = true) :
    patch id f net s =
      .ok ({ s with
              customers := updateCustomers id f s.customers
              outbound := s.outbound ++
                [{ «at» := s.clock, customer_id := id, webhook_url := none,
                   success := false, status_code := none,
                   error := some "webhook URL not configured" }]
              clock := s.clock + 1 },
           mergeCustomer c f, []) := by
  rw [patch_eq_of_found id f net s c hv hc, findCustomer_id s id c hc, hurl]
  rfl

theorem patch_unconfigured_witness :
    patch "hs-001" fArch net200 (setWebhookUrl "" seedState) =
      .ok ({ setWebhookUrl "" seedState with
              customers := updateCustomers "hs-001" fArch
                (setWebhookUrl "" seedState).customers
              outbound := (setWebhookUrl "" seedState).outbound ++
                [{ «at» := (setWebhookUrl "" seedState).clock,
                   customer_id := "hs-001", webhook_url := none,
                   success := false, status_code := none,
                   error := some "webhook URL not configured" }]
              clock := (setWebhookUrl "" seedState).clock + 1 },
           mergeCustomer { id := "hs-001", archived := false, payment_term := none }
             fArch, []) :=
  patch_unconfigured (setWebhookUrl "" seedState) "hs-001"
    { id := "hs-001", archived := false, payment_term := none }
    fArch net200 rfl rfl rfl

/-- C7: webhook delivery failure is invisible to the caller of the patch:
for every network behaviour, a patch that passes validation on an existing
id reports success, and the committed customers and returned record do not
depend on the network at all. -/
theorem patch_caller_success (s : StoreState) (id : String) (c : Customer)
    (f : Fields) (hc : findCustomer s id = some c) (hv : validFields f = true) :
    ∀ net : String → NetOutcome,
      (patch id f net s).isOk = true ∧
      ∀ s' c' calls, patch id f net s = .ok (s', c', calls) →
        s'.customers = updateCustomers id f s.customers ∧
        c' = mergeCustomer c f := by
  intro net
  constructor
  · rw [patch_eq_of_found id f net s c hv hc]
    rfl
  · intro s' c' calls h
    rw [patch_eq_of_found id f net s c hv hc] at h
    simp only [Except.ok.injEq, Prod.mk.injEq] at h
    obtain ⟨hs', hc', hcalls⟩ := h
    subst hs'
    subst hc'
    exact ⟨rfl, rfl⟩

theorem patch_caller_success_witness :
    (patch "hs-001" fArch netDown seedState).isOk = true :=
  ((patch_caller_success seedState "hs-001"
      { id := "hs-001", archived := false, payment_term := none }
      fArch rfl rfl) netDown).1

/-- C8: the origin classification gates the inbound audit trail: a
console-origin mutating call is never recorded in the InboundAttempt
ledger, while an external-origin one always is — appended whether the
operation succeeds or fails, carrying its full request payload, method and
path, and a success flag matching the operation outcome. -/
theorem origin_gates_inbound (r : Request) (op : Op) (net : String → NetOutcome)
    (s : StoreState) :
    (classify r = .console → (handle r op net s).inbound = s.inbound) ∧
    (classify r = .external →
        (handle r op net s).inbound = s.inbound ++
          [{ «at» := (handledState net op s).clock, method := r.method,
             path := r.path, payload := r.payload,
             success := (runOp net op s).isOk,
             status_code := statusOf (runOp net op s),
             error := errorOf (runOp net op s) }]) := by
  constructor
  · intro h
    rw [show handle r op net s = handledState net op s from by simp [handle, h]]
    exact handledState_inbound net op s
  · intro h
    simp only [handle, h]
    rw [handledState_inbound]

theorem origin_gates_inbound_witness :
    (handle reqConsole (.push "hs-001" fArch) net200 seedState).inbound =
      seedState.inbound ∧
    (handle reqExternal (.push "hs-001" fArch) net200 seedState).inbound =
      seedState.inbound ++
        [{ «at» := 0, method := "POST", path := "/customers/push",
           payload := "id=hs-001 archived=true", success := true,
           status_code := 200, error := none }] :=
  ⟨(origin_gates_inbound reqConsole (.push "hs-001" fArch) net200 seedState).1 rfl,
   (origin_gates_inbound reqExternal (.push "hs-001" fArch) net200 seedState).2 rfl⟩

/-- C9: patches to one id, serialized in any order by the store lock, lose
nothing: the final record is the fold of all the merges — in particular a
field supplied by exactly one of the patches ends at its supplied value —
and the outbound ledger gains exactly one attempt per patch, for that
customer, timestamped in the serialization (commit) order. -/
theorem concurrent_patches (s : StoreState) (id : String) (c : Customer)
    (net : String → NetOutcome) (ps : List Fields)
    (hc : findCustomer s id = some c)
    (hv : ∀ f ∈ ps, validFields f = true) :
    findCustomer (runPatches id net ps s) id = some (ps.foldl mergeCustomer c) ∧
    (∀ a, ps.filterMap (fun f => f.archived) = [a] →
        (ps.foldl mergeCustomer c).archived = a) ∧
    (∀ t, ps.filterMap (fun f => f.payment_term) = [t] →
        (ps.foldl mergeCustomer c).payment_term = t) ∧
    (runPatches id net ps s).outbound.length = s.outbound.length + ps.length ∧
    (runPatches id net ps s).outbound.take s.outbound.length = s.outbound ∧
    (∀ a ∈ (runPatches id net ps s).outbound.drop s.outbound.length,
        a.customer_id = id) ∧
    (∀ k (hk : k < ((runPatches id net ps s).outbound.drop s.outbound.length).length),
        (((runPatches id net ps s).outbound.drop s.outbound.length).get ⟨k, hk⟩).«at» =
          s.clock + k) := by
  obtain ⟨h1, ats, he, hlen, hcid, hat⟩ := runPatches_spec id net ps s c hc hv
  have ed : (runPatches id net ps s).outbound.drop s.outbound.length = ats := by
    rw [he]
    exact List.drop_left _ _
  refine ⟨h1, ?_, ?_, ?_, ?_, ?_, ?_⟩
  · intro a ha
    exact foldl_merge_archived ps c a ha
  · intro t ht
    exact foldl_merge_pt ps c t ht
  · rw [he, List.length_append, hlen]
  · rw [he]
    exact List.take_left _ _
  · intro a ha
    apply hcid
    rwa [ed] at ha
  · intro k hk
    have hk2 : k < ats.length := by rwa [ed] at hk
    rw [List.get_of_eq ed ⟨k, hk⟩]
    exact hat k hk2

theorem concurrent_patches_witness :
    findCustomer (runPatches "hs-001" net200 [fArch, fNet30] seedState) "hs-001" =
      some ([fArch, fNet30].foldl mergeCustomer
        { id := "hs-001", archived := false, payment_term := none }) ∧
    ([fArch, fNet30].foldl mergeCustomer
      ({ id := "hs-001", archived := false, payment_term := none } :
        Customer)).archived = true ∧
    ([fArch, fNet30].foldl mergeCustomer
      ({ id := "hs-001", archived := false, payment_term := none } :
        Customer)).payment_term = some "Net 30" ∧
    (runPatches "hs-001" net200 [fArch, fNet30] seedState).outbound.length =
      seedState.outbound.length + 2 := by
  have h := concurrent_patches seedState "hs-001"
    { id := "hs-001", archived := false, payment_term := none }
    net200 [fArch, fNet30] rfl (by decide)
  exact ⟨h.1, h.2.1 true rfl, h.2.2.1 (some "Net 30") rfl, h.2.2.2.1⟩

/-- C10: the console's `patchCustomer` applies the patch optimistically to
the displayed customer list before the PATCH round-trip resolves, and once
the `/state` re-fetch completes — performed after success and failure alike
— the displayed state is exactly the fetched snapshot, so a failed PATCH
never leaves the optimistic local mutation in place. -/
theorem patchCustomer_optimistic_then_refresh (st : ApiState)
    (customerId : String) (p : Fields) (r : Except String Unit)
    (snap : ApiState) :
    (patchCustomer st customerId p r (.ok snap)).1 =
      optimisticApply st customerId p ∧
    (patchCustomer st customerId p r (.ok snap)).2 = snap := by
  cases r <;> exact ⟨rfl, rfl⟩

end ThirdPartyFake
